import Mathlib

/-!
Verification of the `missingno` utility functions `nullity_sort` and
`nullity_filter` (src/missingno/utils.py) against their natural-language
specification.

A pandas DataFrame is modelled as a `Table`: a number of columns together
with a list of rows, each row a list of cells, where a cell is either a
value (`some v`) or missing (`none`).  `df.count(axis="columns")` counts the
non-missing cells of each row, `df.count(axis="index")` counts the
non-missing cells of each column, `df.iloc[perm, :]` takes rows by position
and `df.iloc[:, perm]` takes columns by position.  `np.argsort` is modelled
as a stable ascending argsort (numpy's sort is stable on the small integer
arrays that arise here), and `np.flipud` is list reversal.
-/

namespace Missingno

/-- A cell of the table: `some v` is a present value, `none` is missing. -/
abbrev Cell := Option Nat

/-- A two-dimensional table: a column count and a list of rows. -/
structure Table where
  ncols : Nat
  rows : List (List Cell)
deriving DecidableEq, Repr

/-- A table is rectangular when every row has exactly `ncols` cells. -/
def Table.Rect (t : Table) : Prop := ∀ r ∈ t.rows, r.length = t.ncols

instance (t : Table) : Decidable t.Rect := List.decidableBAll _ t.rows

/-- Number of non-missing cells of one row: one entry of `df.count(axis="columns")`. -/
def rowCount (r : List Cell) : Nat := r.countP (fun c => c.isSome)

/-- The per-row non-missing counts, in row order: `df.count(axis="columns").values`. -/
def Table.rowCounts (t : Table) : List Nat := t.rows.map rowCount

/-- Number of non-missing cells of column `j`: one entry of `df.count(axis="index")`. -/
def Table.colCount (t : Table) (j : Nat) : Nat :=
  t.rows.countP (fun r => (r.getD j none).isSome)

/-- The per-column non-missing counts, in column order: `df.count(axis="index").values`. -/
def Table.colCounts (t : Table) : List Nat := (List.range t.ncols).map t.colCount

/-- Completeness fraction of column `j`: its non-missing count divided by the
number of rows, `df.count(axis="index").values / len(df)`. -/
def Table.colFrac (t : Table) (j : Nat) : ℚ := (t.colCount j : ℚ) / (t.rows.length : ℚ)

/-- The key comparison used by `np.argsort xs`: compare positions by their values. -/
def keyLE (xs : List Nat) (i j : Nat) : Prop := xs.getD i 0 ≤ xs.getD j 0

instance (xs : List Nat) : DecidableRel (keyLE xs) := fun i j =>
  inferInstanceAs (Decidable (xs.getD i 0 ≤ xs.getD j 0))

instance (xs : List Nat) : IsTotal Nat (keyLE xs) := ⟨fun i j => Nat.le_total _ _⟩

instance (xs : List Nat) : IsTrans Nat (keyLE xs) := ⟨fun _ _ _ => Nat.le_trans⟩

/-- `np.argsort xs`: the positions of `xs` stably sorted by value, ascending. -/
def argsort (xs : List Nat) : List Nat :=
  List.insertionSort (keyLE xs) (List.range xs.length)

/-- `np.sort` on a list of positions (ascending). -/
def natSort (xs : List Nat) : List Nat := List.insertionSort (· ≤ ·) xs

/-- `df.iloc[perm, :]`: take rows by position. -/
def applyRowPerm (perm : List Nat) (t : Table) : Table :=
  ⟨t.ncols, perm.map (fun i => t.rows.getD i [])⟩

/-- `df.iloc[:, perm]`: take columns by position. -/
def applyColPerm (perm : List Nat) (t : Table) : Table :=
  ⟨perm.length, t.rows.map (fun r => perm.map (fun j => r.getD j none))⟩

/-- `df.iloc[:, mask]` with a boolean mask over column positions, `mask[j] = keep j`. -/
def maskCols (keep : Nat → Bool) (t : Table) : Table :=
  applyColPerm ((List.range t.ncols).filter keep) t

/-- `np.sort(np.argsort(cs)[-n:])`: the positions of the `n` highest counts,
put back into original column order. -/
def nTopPositions (cs : List Nat) (n : Nat) : List Nat :=
  natSort ((argsort cs).drop (cs.length - n))

/-- `np.sort(np.argsort(cs)[:n])`: the positions of the `n` lowest counts,
put back into original column order. -/
def nBottomPositions (cs : List Nat) (n : Nat) : List Nat :=
  natSort ((argsort cs).take n)

/-- Shallow embedding of `nullity_sort` (src/missingno/utils.py, lines 7-46).
The result pairs the number of deprecation warnings emitted with the returned
table; `Except.error` models the `ValueError` raises. -/
def nullity_sort (df : Table) (sort : Option String) (axis : String) :
    Except String (Nat × Table) :=
  match sort with
  | none => Except.ok (0, df)
  | some s =>
    if s = "ascending" ∨ s = "descending" then
      let warns : Nat := if axis = "rows" then 1 else 0
      let ax : String := if axis = "rows" then "index" else axis
      if ax = "index" ∨ ax = "columns" then
        if ax = "columns" then
          if s = "ascending" then
            Except.ok (warns, applyRowPerm (argsort df.rowCounts) df)
          else
            Except.ok (warns, applyRowPerm (argsort df.rowCounts).reverse df)
        else
          if s = "ascending" then
            Except.ok (warns, applyColPerm (argsort df.colCounts) df)
          else
            Except.ok (warns, applyColPerm (argsort df.colCounts).reverse df)
      else
        Except.error "The axis parameter must be set to index or columns."
    else
      Except.error "The sort parameter must be set to ascending or descending."

/-- Shallow embedding of `nullity_filter` (src/missingno/utils.py, lines 49-75).
`if p:` and `if n:` are Python truthiness tests, i.e. non-zero tests. -/
def nullity_filter (df : Table) (filter : Option String) (p : ℚ) (n : Nat) : Table :=
  if filter = some "top" then
    let df1 := if p ≠ 0 then maskCols (fun j => decide (p ≤ df.colFrac j)) df else df
    if n ≠ 0 then applyColPerm (nTopPositions df1.colCounts n) df1 else df1
  else if filter = some "bottom" then
    let df1 := if p ≠ 0 then maskCols (fun j => decide (df.colFrac j ≤ p)) df else df
    if n ≠ 0 then applyColPerm (nBottomPositions df1.colCounts n) df1 else df1
  else df

/-- The columns kept by the `p`-step of the `"top"` filter, in original order. -/
def topSurvivors (t : Table) (p : ℚ) : List Nat :=
  (List.range t.ncols).filter (fun j => decide (p ≤ t.colFrac j))

/-- The columns kept by the `p`-step of the `"bottom"` filter, in original order. -/
def botSurvivors (t : Table) (p : ℚ) : List Nat :=
  (List.range t.ncols).filter (fun j => decide (t.colFrac j ≤ p))

/-- The 4-row table from the spec's scenario: columns A, B, C, D with 4, 2, 1 and 4
non-missing cells respectively. -/
def T46 : Table :=
  ⟨4, [[some 1, some 2, some 3, some 4],
       [some 1, some 2, none, some 4],
       [some 1, none, none, some 4],
       [some 1, none, none, some 4]]⟩

/-! ### Helper lemmas -/

lemma map_getD_of_length {α : Type} {l : List α} {m : Nat} (d : α) (h : l.length = m) :
    (List.range m).map (fun i => l.getD i d) = l := by
  subst h
  apply List.ext_getElem
  · simp
  · intro i h1 h2
    rw [List.getElem_map, List.getElem_range]
    exact List.getD_eq_getElem l d h2

lemma map_getD_range {α : Type} (l : List α) (d : α) :
    (List.range l.length).map (fun i => l.getD i d) = l :=
  map_getD_of_length d rfl

lemma getD_map_getD {α β : Type} {l : List β} (f : β → α) (d : α) (d0 : β) {j : Nat}
    (h : j < l.length) :
    (l.map f).getD j d = f (l.getD j d0) := by
  rw [List.getD_eq_getElem _ _ (by simpa using h), List.getD_eq_getElem _ _ h,
    List.getElem_map]

lemma argsort_perm (xs : List Nat) : (argsort xs).Perm (List.range xs.length) :=
  List.perm_insertionSort _ _

lemma argsort_length (xs : List Nat) : (argsort xs).length = xs.length := by
  simpa using (argsort_perm xs).length_eq

lemma argsort_nodup (xs : List Nat) : (argsort xs).Nodup :=
  (argsort_perm xs).nodup_iff.mpr (List.nodup_range xs.length)

lemma argsort_sorted (xs : List Nat) : (argsort xs).Pairwise (keyLE xs) :=
  List.sorted_insertionSort _ _

lemma mem_argsort_lt {xs : List Nat} {i : Nat} (h : i ∈ argsort xs) : i < xs.length :=
  List.mem_range.mp ((argsort_perm xs).subset h)

lemma natSort_perm (xs : List Nat) : (natSort xs).Perm xs :=
  List.perm_insertionSort _ _

lemma natSort_sorted (xs : List Nat) : (natSort xs).Pairwise (· ≤ ·) :=
  List.sorted_insertionSort _ _

lemma pairwise_lt_of_le_nodup {l : List Nat} (h : l.Pairwise (· ≤ ·)) (h2 : l.Nodup) :
    l.Pairwise (· < ·) :=
  (h.and h2).imp (fun hab => lt_of_le_of_ne hab.1 hab.2)

lemma natSort_pairwise_lt {xs : List Nat} (h : xs.Nodup) : (natSort xs).Pairwise (· < ·) :=
  pairwise_lt_of_le_nodup (natSort_sorted xs) ((natSort_perm xs).nodup_iff.mpr h)

/-- A strictly increasing list of naturals below `n` is a sublist of `range n`. -/
lemma sublist_range_of_pairwise_lt {l : List Nat} {n : Nat}
    (hp : l.Pairwise (· < ·)) (hb : ∀ x ∈ l, x < n) : List.Sublist l (List.range n) := by
  have hb' : ∀ x ∈ l, x < (List.range n).length := by simpa using hb
  have hpair : (l.pmap (fun x hx => (⟨x, hx⟩ : Fin (List.range n).length)) hb').Pairwise
      (· < ·) := by
    rw [List.pairwise_pmap]
    exact hp.imp (fun hab => fun h1 h2 => hab)
  have key := List.map_getElem_sublist hpair
  simpa [List.map_pmap, List.getElem_range] using key

/-- Sorted lists of naturals that are permutations of each other are equal. -/
lemma eq_range_of_perm_sorted {l : List Nat} {n : Nat}
    (h : l.Perm (List.range n)) (hs : l.Pairwise (· ≤ ·)) : l = List.range n :=
  List.eq_of_perm_of_sorted h hs (List.pairwise_le_range n)

lemma natSort_eq_range {l : List Nat} {n : Nat} (h : l.Perm (List.range n)) :
    natSort l = List.range n :=
  eq_range_of_perm_sorted ((natSort_perm l).trans h) (natSort_sorted l)

/-- Uniqueness of the argsort permutation when all values are distinct: any
permutation of `range` that is sorted by the keys of a duplicate-free list
equals `argsort`. -/
lemma argsort_eq_of_sorted_target {cs l : List Nat}
    (hnd : cs.Nodup) (hl : l.Perm (List.range cs.length)) (hs : l.Pairwise (keyLE cs)) :
    argsort cs = l := by
  have hinj : ∀ a, a < cs.length → ∀ b, b < cs.length → cs.getD a 0 = cs.getD b 0 → a = b := by
    intro a ha b hb hab
    rw [List.getD_eq_getElem _ _ ha, List.getD_eq_getElem _ _ hb] at hab
    exact (List.Nodup.getElem_inj_iff hnd).mp hab
  have upg : ∀ m : List Nat, m.Perm (List.range cs.length) → m.Pairwise (keyLE cs) →
      m.Pairwise (fun i j => cs.getD i 0 < cs.getD j 0 ∨ i = j) := by
    intro m hm hp
    have hnodup : m.Nodup := hm.nodup_iff.mpr (List.nodup_range cs.length)
    have hbound : ∀ x ∈ m, x < cs.length := fun x hx => List.mem_range.mp (hm.subset hx)
    refine (hp.and hnodup).imp_of_mem ?_
    intro a b ha hb hab
    rcases lt_or_eq_of_le hab.1 with h | h
    · exact Or.inl h
    · exact absurd (hinj a (hbound a ha) b (hbound b hb) h) hab.2
  haveI : IsAntisymm Nat (fun i j => cs.getD i 0 < cs.getD j 0 ∨ i = j) := by
    constructor
    rintro a b (h1 | rfl) (h2 | h3)
    · exact absurd h2 (lt_asymm h1)
    · exact h3.symm
    · rfl
    · rfl
  exact List.eq_of_perm_of_sorted ((argsort_perm cs).trans hl.symm)
    (upg _ (argsort_perm cs) (argsort_sorted cs)) (upg _ hl hs)

/-- `argsort` of a strictly ascending list is the identity permutation. -/
lemma argsort_eq_range_of_sorted {cs : List Nat} (hnd : cs.Nodup)
    (hs : cs.Pairwise (· ≤ ·)) : argsort cs = List.range cs.length := by
  refine argsort_eq_of_sorted_target hnd (List.Perm.refl _) ?_
  rw [List.pairwise_iff_getElem] at hs ⊢
  intro i j hi hj hij
  simp only [List.getElem_range] at *
  unfold keyLE
  rw [List.getD_eq_getElem _ _ (by simpa using hi), List.getD_eq_getElem _ _ (by simpa using hj)]
  exact hs i j (by simpa using hi) (by simpa using hj) hij

/-- `argsort` of a strictly descending list is the reversal permutation. -/
lemma argsort_eq_reverse_range_of_sorted_ge {cs : List Nat} (hnd : cs.Nodup)
    (hs : cs.Pairwise (fun a b => b ≤ a)) :
    argsort cs = (List.range cs.length).reverse := by
  refine argsort_eq_of_sorted_target hnd (List.reverse_perm _) ?_
  rw [List.pairwise_reverse]
  rw [List.pairwise_iff_getElem] at hs ⊢
  intro i j hi hj hij
  simp only [List.getElem_range] at *
  show keyLE cs j i
  unfold keyLE
  rw [List.getD_eq_getElem _ _ (by simpa using hj), List.getD_eq_getElem _ _ (by simpa using hi)]
  exact hs i j (by simpa using hi) (by simpa using hj) hij

lemma rowCounts_length (t : Table) : t.rowCounts.length = t.rows.length := by
  simp [Table.rowCounts]

lemma colCounts_length (t : Table) : t.colCounts.length = t.ncols := by
  simp [Table.colCounts]

lemma colCounts_getD {t : Table} {j : Nat} (h : j < t.ncols) :
    t.colCounts.getD j 0 = t.colCount j := by
  unfold Table.colCounts
  rw [getD_map_getD _ _ 0 (by simpa using h), List.getD_eq_getElem _ _ (by simpa using h),
    List.getElem_range]

lemma rowCounts_applyRowPerm (pi : List Nat) (t : Table) :
    (applyRowPerm pi t).rowCounts = pi.map (fun i => t.rowCounts.getD i 0) := by
  unfold applyRowPerm Table.rowCounts
  rw [List.map_map]
  apply List.map_congr_left
  intro i _
  simp only [Function.comp_apply]
  by_cases h : i < t.rows.length
  · rw [getD_map_getD rowCount 0 [] h]
  · have h1 : t.rows.length ≤ i := Nat.le_of_not_lt h
    rw [List.getD_eq_default _ _ h1, List.getD_eq_default _ _ (by simpa using h1)]
    rfl

lemma colCounts_applyColPerm (sg : List Nat) (t : Table) :
    (applyColPerm sg t).colCounts = sg.map t.colCount := by
  apply List.ext_getElem
  · simp [Table.colCounts, applyColPerm]
  · intro i h1 h2
    have hi : i < sg.length := by simpa using h2
    simp only [Table.colCounts, applyColPerm, List.getElem_map, List.getElem_range]
    simp only [Table.colCount, List.countP_map]
    apply List.countP_congr
    intro r _
    simp only [Function.comp_apply]
    rw [getD_map_getD _ _ 0 hi, List.getD_eq_getElem _ _ hi]

lemma applyColPerm_rect (sg : List Nat) (t : Table) : (applyColPerm sg t).Rect := by
  intro r hr
  simp only [applyColPerm, List.mem_map] at hr
  obtain ⟨r0, _, rfl⟩ := hr
  simp [applyColPerm]

lemma applyRowPerm_rect {pi : List Nat} {t : Table} (h : t.Rect)
    (hb : ∀ i ∈ pi, i < t.rows.length) : (applyRowPerm pi t).Rect := by
  intro r hr
  simp only [applyRowPerm, List.mem_map] at hr
  obtain ⟨i, hi, rfl⟩ := hr
  have hlt : i < t.rows.length := hb i hi
  exact h _ (List.getD_eq_getElem t.rows [] hlt ▸ List.getElem_mem hlt)

lemma applyColPerm_range {t : Table} (h : t.Rect) :
    applyColPerm (List.range t.ncols) t = t := by
  cases t with
  | mk nc rows =>
    unfold applyColPerm
    simp only [List.length_range, Table.mk.injEq, true_and]
    calc rows.map (fun r => (List.range nc).map (fun j => r.getD j none))
        = rows.map id := List.map_congr_left (fun r hr => map_getD_of_length none (h r hr))
      _ = rows := List.map_id rows

lemma applyColPerm_applyColPerm (is1 is2 : List Nat) (t : Table)
    (h : ∀ i ∈ is2, i < is1.length) :
    applyColPerm is2 (applyColPerm is1 t)
      = applyColPerm (is2.map (fun i => is1.getD i 0)) t := by
  unfold applyColPerm
  simp only [List.map_map, List.length_map, Table.mk.injEq, true_and]
  apply List.map_congr_left
  intro r _
  simp only [Function.comp_apply]
  apply List.map_congr_left
  intro j hj
  simp only [Function.comp_apply]
  exact getD_map_getD _ _ 0 (h j hj)

lemma applyRowPerm_rows_perm {pi : List Nat} {t : Table}
    (h : pi.Perm (List.range t.rows.length)) :
    (applyRowPerm pi t).rows.Perm t.rows := by
  have h1 := h.map (fun i => t.rows.getD i [])
  rw [map_getD_range t.rows []] at h1
  exact h1

lemma argsort_rowCounts_perm (t : Table) :
    (argsort t.rowCounts).Perm (List.range t.rows.length) := by
  simpa [rowCounts_length] using argsort_perm t.rowCounts

lemma argsort_colCounts_perm (t : Table) :
    (argsort t.colCounts).Perm (List.range t.ncols) := by
  simpa [colCounts_length] using argsort_perm t.colCounts

lemma colPerm_flatten {sg : List Nat} {t : Table} (ht : t.Rect)
    (h : sg.Perm (List.range t.ncols)) :
    (applyColPerm sg t).rows.flatten.Perm t.rows.flatten := by
  apply List.Perm.flatten_congr
  show List.Forall₂ (fun a b => List.Perm a b) (t.rows.map _) t.rows
  rw [List.forall₂_map_left_iff]
  apply List.forall₂_same.mpr
  intro r hr
  have h1 := h.map (fun j => r.getD j none)
  rw [map_getD_of_length none (ht r hr)] at h1
  exact h1

lemma sort_rows_props (t : Table) (pi : List Nat)
    (hpi : pi.Perm (List.range t.rows.length)) :
    (applyRowPerm pi t).rows.length = t.rows.length ∧ (applyRowPerm pi t).ncols = t.ncols ∧
      (applyRowPerm pi t).rows.flatten.Perm t.rows.flatten := by
  refine ⟨?_, rfl, (applyRowPerm_rows_perm hpi).flatten⟩
  simpa [applyRowPerm] using hpi.length_eq

lemma sort_cols_props (t : Table) (sg : List Nat) (ht : t.Rect)
    (hsg : sg.Perm (List.range t.ncols)) :
    (applyColPerm sg t).rows.length = t.rows.length ∧ (applyColPerm sg t).ncols = t.ncols ∧
      (applyColPerm sg t).rows.flatten.Perm t.rows.flatten := by
  refine ⟨by simp [applyColPerm], ?_, colPerm_flatten ht hsg⟩
  simpa [applyColPerm] using hsg.length_eq

lemma rowCounts_applyRowPerm_perm {pi : List Nat} {t : Table}
    (h : pi.Perm (List.range t.rows.length)) :
    (applyRowPerm pi t).rowCounts.Perm t.rowCounts := by
  rw [rowCounts_applyRowPerm]
  have h2 := h.map (fun i => t.rowCounts.getD i 0)
  rw [map_getD_of_length 0 (rowCounts_length t)] at h2
  exact h2

lemma colCounts_applyColPerm_perm {sg : List Nat} {t : Table}
    (h : sg.Perm (List.range t.ncols)) :
    (applyColPerm sg t).colCounts.Perm t.colCounts := by
  rw [colCounts_applyColPerm]
  have h1 : sg.map t.colCount = sg.map (fun j => t.colCounts.getD j 0) :=
    List.map_congr_left (fun j hj =>
      (colCounts_getD (List.mem_range.mp (h.subset hj))).symm)
  rw [h1]
  have h2 := h.map (fun j => t.colCounts.getD j 0)
  rw [map_getD_of_length 0 (colCounts_length t)] at h2
  exact h2

lemma colCounts_applyColPerm_sorted {t : Table} :
    (applyColPerm (argsort t.colCounts) t).colCounts.Pairwise (· ≤ ·) := by
  rw [colCounts_applyColPerm, List.pairwise_map]
  refine (argsort_sorted t.colCounts).imp_of_mem ?_
  intro a b ha hb hab
  have ha' : a < t.ncols := by simpa [colCounts_length] using mem_argsort_lt ha
  have hb' : b < t.ncols := by simpa [colCounts_length] using mem_argsort_lt hb
  rw [← colCounts_getD ha', ← colCounts_getD hb']
  exact hab

lemma applyRowPerm_reverse_range (t : Table) :
    applyRowPerm (List.range t.rows.length).reverse t = ⟨t.ncols, t.rows.reverse⟩ := by
  unfold applyRowPerm
  rw [Table.mk.injEq]
  refine ⟨rfl, ?_⟩
  calc List.map (fun i => t.rows.getD i []) (List.range t.rows.length).reverse
      = (List.map (fun i => t.rows.getD i []) (List.range t.rows.length)).reverse :=
        List.map_reverse _ _
    _ = t.rows.reverse := by rw [map_getD_range]

lemma applyColPerm_reverse_range {t : Table} (h : t.Rect) :
    applyColPerm (List.range t.ncols).reverse t = ⟨t.ncols, t.rows.map List.reverse⟩ := by
  unfold applyColPerm
  rw [Table.mk.injEq]
  refine ⟨by simp, ?_⟩
  apply List.map_congr_left
  intro r hr
  calc List.map (fun j => r.getD j none) (List.range t.ncols).reverse
      = (List.map (fun j => r.getD j none) (List.range t.ncols)).reverse :=
        List.map_reverse _ _
    _ = r.reverse := by rw [map_getD_of_length none (h r hr)]

lemma natSort_seg_sublist {cs seg : List Nat} (hseg : List.Sublist seg (argsort cs)) :
    List.Sublist (natSort seg) (List.range cs.length) ∧ (natSort seg).length = seg.length := by
  have hnd : seg.Nodup := (argsort_nodup cs).sublist hseg
  have hperm := natSort_perm seg
  have hnd2 : (natSort seg).Nodup := hperm.nodup_iff.mpr hnd
  have hlt : (natSort seg).Pairwise (· < ·) :=
    pairwise_lt_of_le_nodup (natSort_sorted seg) hnd2
  have hb : ∀ x ∈ natSort seg, x < cs.length := fun x hx =>
    mem_argsort_lt (hseg.subset (hperm.subset hx))
  exact ⟨sublist_range_of_pairwise_lt hlt hb, hperm.length_eq⟩

lemma nTopPositions_sublist (cs : List Nat) (n : Nat) :
    List.Sublist (nTopPositions cs n) (List.range cs.length) ∧
      (nTopPositions cs n).length = min n cs.length := by
  have h := natSort_seg_sublist (List.drop_sublist (cs.length - n) (argsort cs))
  refine ⟨h.1, ?_⟩
  show (natSort ((argsort cs).drop (cs.length - n))).length = min n cs.length
  rw [h.2, List.length_drop, argsort_length]
  omega

lemma nBottomPositions_sublist (cs : List Nat) (n : Nat) :
    List.Sublist (nBottomPositions cs n) (List.range cs.length) ∧
      (nBottomPositions cs n).length = min n cs.length := by
  have h := natSort_seg_sublist (List.take_sublist n (argsort cs))
  refine ⟨h.1, ?_⟩
  show (natSort ((argsort cs).take n)).length = min n cs.length
  rw [h.2, List.length_take, argsort_length]

lemma nTopPositions_pairwise_lt (cs : List Nat) (n : Nat) :
    (nTopPositions cs n).Pairwise (· < ·) :=
  natSort_pairwise_lt ((argsort_nodup cs).sublist (List.drop_sublist _ _))

lemma nBottomPositions_pairwise_lt (cs : List Nat) (n : Nat) :
    (nBottomPositions cs n).Pairwise (· < ·) :=
  natSort_pairwise_lt ((argsort_nodup cs).sublist (List.take_sublist _ _))

/-- Each position selected by the bottom-`n` step carries a count no larger than any
unselected position's count. -/
lemma nBottomPositions_lowest {cs : List Nat} {n i j : Nat}
    (hi : i ∈ nBottomPositions cs n) (hj : j < cs.length)
    (hj2 : j ∉ nBottomPositions cs n) :
    cs.getD i 0 ≤ cs.getD j 0 := by
  have hmem : ∀ x : Nat, x ∈ nBottomPositions cs n ↔ x ∈ (argsort cs).take n :=
    fun x => (natSort_perm _).mem_iff
  have hi' : i ∈ (argsort cs).take n := (hmem i).mp hi
  have hsplit : (argsort cs).take n ++ (argsort cs).drop n = argsort cs :=
    List.take_append_drop n _
  have hj' : j ∈ (argsort cs).drop n := by
    have hjarg : j ∈ argsort cs := (argsort_perm cs).mem_iff.mpr (List.mem_range.mpr hj)
    rw [← hsplit] at hjarg
    rcases List.mem_append.mp hjarg with h | h
    · exact absurd ((hmem j).mpr h) hj2
    · exact h
  have hp := argsort_sorted cs
  rw [← hsplit] at hp
  exact (List.pairwise_append.mp hp).2.2 i hi' j hj'

/-- Each position selected by the top-`n` step carries a count no smaller than any
unselected position's count. -/
lemma nTopPositions_highest {cs : List Nat} {n i j : Nat}
    (hi : i ∈ nTopPositions cs n) (hj : j < cs.length)
    (hj2 : j ∉ nTopPositions cs n) :
    cs.getD j 0 ≤ cs.getD i 0 := by
  have hmem : ∀ x : Nat, x ∈ nTopPositions cs n ↔ x ∈ (argsort cs).drop (cs.length - n) :=
    fun x => (natSort_perm _).mem_iff
  have hi' : i ∈ (argsort cs).drop (cs.length - n) := (hmem i).mp hi
  have hsplit : (argsort cs).take (cs.length - n) ++ (argsort cs).drop (cs.length - n)
      = argsort cs := List.take_append_drop _ _
  have hj' : j ∈ (argsort cs).take (cs.length - n) := by
    have hjarg : j ∈ argsort cs := (argsort_perm cs).mem_iff.mpr (List.mem_range.mpr hj)
    rw [← hsplit] at hjarg
    rcases List.mem_append.mp hjarg with h | h
    · exact h
    · exact absurd ((hmem j).mpr h) hj2
  have hp := argsort_sorted cs
  rw [← hsplit] at hp
  exact (List.pairwise_append.mp hp).2.2 j hj' i hi'

/-- Reading a strictly increasing in-bounds list of positions out of a list of
naturals yields a sublist. -/
lemma map_getD_sublist {l is : List Nat}
    (hp : is.Pairwise (· < ·)) (hb : ∀ i ∈ is, i < l.length) :
    List.Sublist (is.map (fun i => l.getD i 0)) l := by
  have hpair : (is.pmap (fun i h => (⟨i, h⟩ : Fin l.length)) hb).Pairwise (· < ·) := by
    rw [List.pairwise_pmap]
    exact hp.imp (fun hab => fun h1 h2 => hab)
  have key := List.map_getElem_sublist hpair
  have heq : (is.pmap (fun i h => (⟨i, h⟩ : Fin l.length)) hb).map (fun i => l[i])
      = is.map (fun i => l.getD i 0) := by
    apply List.ext_getElem
    · simp
    · intro k h1 h2
      simp only [List.getElem_map, List.getElem_pmap, Fin.getElem_fin]
      exact (List.getD_eq_getElem l 0 (hb _ (List.getElem_mem _))).symm
  rw [heq] at key
  exact key

/-- Stability of `argsort` at a tie: if positions `i < j` carry equal values then
`i` stays before `j` in the ascending argsort, hence `j` comes before `i` in the
reversed (descending) permutation. -/
lemma argsort_tie_order {cs : List Nat} {i j : Nat} (hij : i < j) (hj : j < cs.length)
    (heq : cs.getD i 0 = cs.getD j 0) :
    List.Sublist [i, j] (argsort cs) ∧ List.Sublist [j, i] (argsort cs).reverse := by
  have h1 : List.Sublist [i, j] (List.range cs.length) := by
    apply sublist_range_of_pairwise_lt
    · exact List.pairwise_pair.mpr hij
    · intro x hx
      rcases List.mem_pair.mp hx with rfl | rfl
      · omega
      · exact hj
  have h2 : keyLE cs i j := le_of_eq heq
  have h3 : List.Sublist [i, j] (argsort cs) := List.pair_sublist_insertionSort h2 h1
  exact ⟨h3, by simpa using h3.reverse⟩

/-- C2: for either axis the descending permutation is the full reversal of the
ascending one — the descending result's rows (for `axis == "columns"`) are the
ascending result's rows reversed, and for `axis == "index"` each row is reversed;
positions with tied counts appear in original order ascending and hence in reverse
of their original relative order descending; and when no two counts are equal,
sorting and then sorting with the opposite direction reverses the first
permutation. -/
theorem C2_descending_is_full_reversal (t : Table) :
    (∃ ta td : Table,
        nullity_sort t (some "ascending") "columns" = Except.ok (0, ta) ∧
        nullity_sort t (some "descending") "columns" = Except.ok (0, td) ∧
        td.rows = ta.rows.reverse) ∧
    (∃ ta td : Table,
        nullity_sort t (some "ascending") "index" = Except.ok (0, ta) ∧
        nullity_sort t (some "descending") "index" = Except.ok (0, td) ∧
        td.rows = ta.rows.map List.reverse) ∧
    (∀ i j : Nat, i < j → j < t.rowCounts.length →
        t.rowCounts.getD i 0 = t.rowCounts.getD j 0 →
        List.Sublist [i, j] (argsort t.rowCounts) ∧
        List.Sublist [j, i] (argsort t.rowCounts).reverse) ∧
    (∀ i j : Nat, i < j → j < t.colCounts.length →
        t.colCounts.getD i 0 = t.colCounts.getD j 0 →
        List.Sublist [i, j] (argsort t.colCounts) ∧
        List.Sublist [j, i] (argsort t.colCounts).reverse) ∧
    (t.rowCounts.Nodup →
      (∀ ta : Table, nullity_sort t (some "ascending") "columns" = Except.ok (0, ta) →
        nullity_sort ta (some "descending") "columns"
          = Except.ok (0, ⟨ta.ncols, ta.rows.reverse⟩)) ∧
      (∀ td : Table, nullity_sort t (some "descending") "columns" = Except.ok (0, td) →
        nullity_sort td (some "ascending") "columns"
          = Except.ok (0, ⟨td.ncols, td.rows.reverse⟩))) ∧
    (t.colCounts.Nodup →
      (∀ ta : Table, nullity_sort t (some "ascending") "index" = Except.ok (0, ta) →
        nullity_sort ta (some "descending") "index"
          = Except.ok (0, ⟨ta.ncols, ta.rows.map List.reverse⟩)) ∧
      (∀ td : Table, nullity_sort t (some "descending") "index" = Except.ok (0, td) →
        nullity_sort td (some "ascending") "index"
          = Except.ok (0, ⟨td.ncols, td.rows.map List.reverse⟩))) := by
  refine ⟨?_, ?_, ?_, ?_, ?_, ?_⟩
  · exact ⟨applyRowPerm (argsort t.rowCounts) t,
      applyRowPerm (argsort t.rowCounts).reverse t, rfl, rfl, List.map_reverse _ _⟩
  · refine ⟨applyColPerm (argsort t.colCounts) t,
      applyColPerm (argsort t.colCounts).reverse t, rfl, rfl, ?_⟩
    show List.map _ t.rows = (List.map _ t.rows).map List.reverse
    rw [List.map_map]
    apply List.map_congr_left
    intro r _
    exact (List.map_reverse _ _).trans rfl
  · exact fun i j hij hj heq => argsort_tie_order hij hj heq
  · exact fun i j hij hj heq => argsort_tie_order hij hj heq
  · intro hnd
    constructor
    · rintro ta hta
      have hta' : ta = applyRowPerm (argsort t.rowCounts) t := by
        have h0 : nullity_sort t (some "ascending") "columns"
            = Except.ok (0, applyRowPerm (argsort t.rowCounts) t) := rfl
        rw [h0] at hta
        simpa using hta.symm
      subst hta'
      have hca := rowCounts_applyRowPerm (argsort t.rowCounts) t
      have hperm := rowCounts_applyRowPerm_perm (t := t) (argsort_rowCounts_perm t)
      have hnd2 := hperm.nodup_iff.mpr hnd
      have hsorted : (applyRowPerm (argsort t.rowCounts) t).rowCounts.Pairwise (· ≤ ·) := by
        rw [hca, List.pairwise_map]
        exact argsort_sorted t.rowCounts
      have hargs := argsort_eq_range_of_sorted hnd2 hsorted
      show Except.ok
          (0, applyRowPerm (argsort (applyRowPerm (argsort t.rowCounts) t).rowCounts).reverse
            (applyRowPerm (argsort t.rowCounts) t)) = _
      rw [hargs, rowCounts_length, applyRowPerm_reverse_range]
    · rintro td htd
      have htd' : td = applyRowPerm (argsort t.rowCounts).reverse t := by
        have h0 : nullity_sort t (some "descending") "columns"
            = Except.ok (0, applyRowPerm (argsort t.rowCounts).reverse t) := rfl
        rw [h0] at htd
        simpa using htd.symm
      subst htd'
      have hca := rowCounts_applyRowPerm (argsort t.rowCounts).reverse t
      have hperm := rowCounts_applyRowPerm_perm (t := t)
        ((List.reverse_perm _).trans (argsort_rowCounts_perm t))
      have hnd2 := hperm.nodup_iff.mpr hnd
      have hsorted : (applyRowPerm (argsort t.rowCounts).reverse t).rowCounts.Pairwise
          (fun a b => b ≤ a) := by
        rw [hca, List.map_reverse, List.pairwise_reverse]
        rw [List.pairwise_map]
        exact (argsort_sorted t.rowCounts).imp (fun hab => hab)
      have hargs := argsort_eq_reverse_range_of_sorted_ge hnd2 hsorted
      show Except.ok
          (0, applyRowPerm
            (argsort (applyRowPerm (argsort t.rowCounts).reverse t).rowCounts)
            (applyRowPerm (argsort t.rowCounts).reverse t)) = _
      rw [hargs, rowCounts_length, applyRowPerm_reverse_range]
  · intro hnd
    constructor
    · rintro ta hta
      have hta' : ta = applyColPerm (argsort t.colCounts) t := by
        have h0 : nullity_sort t (some "ascending") "index"
            = Except.ok (0, applyColPerm (argsort t.colCounts) t) := rfl
        rw [h0] at hta
        simpa using hta.symm
      subst hta'
      have hperm := colCounts_applyColPerm_perm (t := t) (argsort_colCounts_perm t)
      have hnd2 := hperm.nodup_iff.mpr hnd
      have hsorted := colCounts_applyColPerm_sorted (t := t)
      have hargs := argsort_eq_range_of_sorted hnd2 hsorted
      show Except.ok
          (0, applyColPerm (argsort (applyColPerm (argsort t.colCounts) t).colCounts).reverse
            (applyColPerm (argsort t.colCounts) t)) = _
      rw [hargs, colCounts_length,
        applyColPerm_reverse_range (applyColPerm_rect _ _)]
    · rintro td htd
      have htd' : td = applyColPerm (argsort t.colCounts).reverse t := by
        have h0 : nullity_sort t (some "descending") "index"
            = Except.ok (0, applyColPerm (argsort t.colCounts).reverse t) := rfl
        rw [h0] at htd
        simpa using htd.symm
      subst htd'
      have hperm := colCounts_applyColPerm_perm (t := t)
        ((List.reverse_perm _).trans (argsort_colCounts_perm t))
      have hnd2 := hperm.nodup_iff.mpr hnd
      have hsorted : (applyColPerm (argsort t.colCounts).reverse t).colCounts.Pairwise
          (fun a b => b ≤ a) := by
        rw [colCounts_applyColPerm, List.map_reverse, List.pairwise_reverse]
        rw [List.pairwise_map]
        refine (argsort_sorted t.colCounts).imp_of_mem ?_
        intro a b ha hb hab
        have ha' : a < t.ncols := by simpa [colCounts_length] using mem_argsort_lt ha
        have hb' : b < t.ncols := by simpa [colCounts_length] using mem_argsort_lt hb
        rw [← colCounts_getD ha', ← colCounts_getD hb']
        exact hab
      have hargs := argsort_eq_reverse_range_of_sorted_ge hnd2 hsorted
      show Except.ok
          (0, applyColPerm (argsort (applyColPerm (argsort t.colCounts).reverse t).colCounts)
            (applyColPerm (argsort t.colCounts).reverse t)) = _
      rw [hargs, colCounts_length,
        applyColPerm_reverse_range (applyColPerm_rect _ _)]

/-! ### Claim theorems -/

/-- C10: when `sort` is called with direction `None`, the table is returned before any
axis processing: no deprecation warning is emitted (warning count 0) and no error is
raised, for every axis value, including the deprecated `"rows"` and invalid strings. -/
theorem C10_none_direction_short_circuits (t : Table) (axis : String) :
    nullity_sort t none axis = Except.ok (0, t) := rfl

/-- C5: `sort` with direction `None` returns the table unchanged regardless of axis, and
`filter` with mode `None` returns the table unchanged regardless of `p` and `n`. -/
theorem C5_identity_laws (t : Table) (axis : String) (p : ℚ) (n : Nat) :
    nullity_sort t none axis = Except.ok (0, t) ∧ nullity_filter t none p n = t := by
  refine ⟨rfl, ?_⟩
  simp [nullity_filter]

/-- C9: `filter` with a mode other than `"top"` and `"bottom"` (including unrecognized
non-empty strings) returns the input unchanged and raises no error (the function is
total). -/
theorem C9_unrecognized_filter_is_noop (t : Table) (mode : Option String) (p : ℚ) (n : Nat)
    (h1 : mode ≠ some "top") (h2 : mode ≠ some "bottom") :
    nullity_filter t mode p n = t := by
  simp [nullity_filter, h1, h2]

theorem C9_unrecognized_filter_is_noop_witness :
    ((some "middle" : Option String) ≠ some "top") ∧
      ((some "middle" : Option String) ≠ some "bottom") ∧
      nullity_filter ⟨1, [[some 3], [none]]⟩ (some "middle") (1 / 2) 1
        = ⟨1, [[some 3], [none]]⟩ :=
  ⟨by simp, by simp,
    C9_unrecognized_filter_is_noop ⟨1, [[some 3], [none]]⟩ (some "middle") (1 / 2) 1
      (by simp) (by simp)⟩

/-- C7: `sort` with a valid direction and `axis == "rows"` emits exactly one deprecation
warning and returns the same table as `axis == "index"` (which emits none). -/
theorem C7_rows_alias (t : Table) (d : String)
    (hd : d = "ascending" ∨ d = "descending") :
    ∃ t2 : Table, nullity_sort t (some d) "rows" = Except.ok (1, t2) ∧
      nullity_sort t (some d) "index" = Except.ok (0, t2) := by
  rcases hd with rfl | rfl
  · exact ⟨applyColPerm (argsort t.colCounts) t, rfl, rfl⟩
  · exact ⟨applyColPerm (argsort t.colCounts).reverse t, rfl, rfl⟩

theorem C7_rows_alias_witness :
    ("ascending" = "ascending" ∨ "ascending" = "descending") ∧
      ∃ t2 : Table,
        nullity_sort ⟨1, [[some 0], [none]]⟩ (some "ascending") "rows" = Except.ok (1, t2) ∧
        nullity_sort ⟨1, [[some 0], [none]]⟩ (some "ascending") "index" = Except.ok (0, t2) :=
  ⟨Or.inl rfl, C7_rows_alias ⟨1, [[some 0], [none]]⟩ "ascending" (Or.inl rfl)⟩

/-- C4: `sort` raises exactly when the direction argument is supplied but is neither
`"ascending"` nor `"descending"`, or (the direction being supplied) the axis argument,
after normalizing the deprecated `"rows"` alias, is neither `"index"` nor `"columns"`. -/
theorem C4_error_conditions (t : Table) (s : Option String) (a : String) :
    (∃ e, nullity_sort t s a = Except.error e) ↔
      (s ≠ none ∧
        ((∀ v, s = some v → ¬(v = "ascending" ∨ v = "descending")) ∨
          ¬((if a = "rows" then "index" else a) = "index" ∨
            (if a = "rows" then "index" else a) = "columns"))) := by
  rcases s with _ | v
  · simp [nullity_sort]
  · by_cases hv : v = "ascending" ∨ v = "descending"
    · by_cases ha : (if a = "rows" then "index" else a) = "index" ∨
          (if a = "rows" then "index" else a) = "columns"
      · constructor
        · rintro ⟨e, he⟩
          rcases hv with rfl | rfl <;> rcases ha with hax | hax <;>
            simp [nullity_sort, hax] at he
        · rintro ⟨-, h | h⟩
          · exact absurd hv (h v rfl)
          · exact absurd ha h
      · refine ⟨fun _ => ⟨by simp, Or.inr ha⟩, fun _ => ?_⟩
        refine ⟨"The axis parameter must be set to index or columns.", ?_⟩
        push_neg at ha
        rcases hv with rfl | rfl <;> simp [nullity_sort, ha.1, ha.2]
    · constructor
      · intro _
        refine ⟨by simp, Or.inl ?_⟩
        rintro v' hv'
        rw [Option.some.injEq] at hv'
        exact hv' ▸ hv
      · intro _
        refine ⟨"The sort parameter must be set to ascending or descending.", ?_⟩
        simp [nullity_sort, hv]

/-- C1, counterexample: on a one-column table whose first row is complete and whose
second row is missing, `sort` ascending with `axis == "columns"` reorders the rows
(the missing row moves first), so it does not count per column and permute the
columns leaving row order untouched as the claim states. -/
theorem C1_counterexample :
    nullity_sort ⟨1, [[some 0], [none]]⟩ (some "ascending") "columns"
      = Except.ok (0, (⟨1, [[none], [some 0]]⟩ : Table)) ∧
      ([[none], [some 0]] : List (List Cell)) ≠ [[some 0], [none]] :=
  ⟨rfl, by decide⟩

/-- C1, amended: `sort` with `axis == "columns"` computes one non-missing-cell count per
row (counting along the column axis) and permutes the table's rows by those counts
(ascending when the direction is `"ascending"`), leaving each row — and hence the
column order — untouched; symmetrically, `axis == "index"` computes one count per
column and permutes the table's columns, leaving the row order untouched. -/
theorem C1_amended (t : Table) (d : String)
    (hd : d = "ascending" ∨ d = "descending") :
    (∃ pi : List Nat, pi.Perm (List.range t.rows.length) ∧
        nullity_sort t (some d) "columns" = Except.ok (0, applyRowPerm pi t) ∧
        (d = "ascending" → (applyRowPerm pi t).rowCounts.Pairwise (· ≤ ·))) ∧
    (∃ sg : List Nat, sg.Perm (List.range t.ncols) ∧
        nullity_sort t (some d) "index" = Except.ok (0, applyColPerm sg t) ∧
        (d = "ascending" → (applyColPerm sg t).colCounts.Pairwise (· ≤ ·))) := by
  rcases hd with rfl | rfl
  · constructor
    · refine ⟨argsort t.rowCounts, argsort_rowCounts_perm t, rfl, fun _ => ?_⟩
      rw [rowCounts_applyRowPerm, List.pairwise_map]
      exact argsort_sorted t.rowCounts
    · refine ⟨argsort t.colCounts, argsort_colCounts_perm t, rfl, fun _ => ?_⟩
      rw [colCounts_applyColPerm, List.pairwise_map]
      refine (argsort_sorted t.colCounts).imp_of_mem ?_
      intro a b ha hb hab
      have ha' : a < t.ncols := by simpa [colCounts_length] using mem_argsort_lt ha
      have hb' : b < t.ncols := by simpa [colCounts_length] using mem_argsort_lt hb
      rw [← colCounts_getD ha', ← colCounts_getD hb']
      exact hab
  · constructor
    · exact ⟨(argsort t.rowCounts).reverse,
        (List.reverse_perm _).trans (argsort_rowCounts_perm t), rfl,
        fun hcon => absurd hcon (by simp)⟩
    · exact ⟨(argsort t.colCounts).reverse,
        (List.reverse_perm _).trans (argsort_colCounts_perm t), rfl,
        fun hcon => absurd hcon (by simp)⟩

theorem C1_amended_witness :
    ("ascending" = "ascending" ∨ "ascending" = "descending") ∧
      (∃ pi : List Nat,
          pi.Perm (List.range (⟨1, [[some 0], [none]]⟩ : Table).rows.length) ∧
          nullity_sort ⟨1, [[some 0], [none]]⟩ (some "ascending") "columns"
            = Except.ok (0, applyRowPerm pi ⟨1, [[some 0], [none]]⟩) ∧
          ("ascending" = "ascending" →
            (applyRowPerm pi (⟨1, [[some 0], [none]]⟩ : Table)).rowCounts.Pairwise (· ≤ ·))) ∧
      (∃ sg : List Nat,
          sg.Perm (List.range (⟨1, [[some 0], [none]]⟩ : Table).ncols) ∧
          nullity_sort ⟨1, [[some 0], [none]]⟩ (some "ascending") "index"
            = Except.ok (0, applyColPerm sg ⟨1, [[some 0], [none]]⟩) ∧
          ("ascending" = "ascending" →
            (applyColPerm sg (⟨1, [[some 0], [none]]⟩ : Table)).colCounts.Pairwise (· ≤ ·))) :=
  ⟨Or.inl rfl, C1_amended ⟨1, [[some 0], [none]]⟩ "ascending" (Or.inl rfl)⟩

/-- C8: for every rectangular table and every valid direction and axis (including the
deprecated `"rows"` alias), `sort` succeeds and returns a table with the same row count,
the same column count, and the same multiset of cells — only the ordering changed. -/
theorem C8_shape_and_cells_preserved (t : Table) (d a : String) (ht : t.Rect)
    (hd : d = "ascending" ∨ d = "descending")
    (ha : a = "index" ∨ a = "columns" ∨ a = "rows") :
    ∃ (w : Nat) (t2 : Table), nullity_sort t (some d) a = Except.ok (w, t2) ∧
      t2.rows.length = t.rows.length ∧ t2.ncols = t.ncols ∧
      t2.rows.flatten.Perm t.rows.flatten := by
  have hasc := argsort_rowCounts_perm t
  have hdesc := (List.reverse_perm _).trans hasc
  have hcasc := argsort_colCounts_perm t
  have hcdesc := (List.reverse_perm _).trans hcasc
  rcases hd with rfl | rfl <;> rcases ha with rfl | rfl | rfl
  · exact ⟨0, _, rfl, sort_cols_props t _ ht hcasc⟩
  · exact ⟨0, _, rfl, sort_rows_props t _ hasc⟩
  · exact ⟨1, _, rfl, sort_cols_props t _ ht hcasc⟩
  · exact ⟨0, _, rfl, sort_cols_props t _ ht hcdesc⟩
  · exact ⟨0, _, rfl, sort_rows_props t _ hdesc⟩
  · exact ⟨1, _, rfl, sort_cols_props t _ ht hcdesc⟩

theorem C2_descending_is_full_reversal_witness :
    ((0 : Nat) < 1 ∧ 1 < (Table.rowCounts ⟨1, [[none], [none]]⟩).length ∧
      (Table.rowCounts ⟨1, [[none], [none]]⟩).getD 0 0
        = (Table.rowCounts ⟨1, [[none], [none]]⟩).getD 1 0 ∧
      (List.Sublist [0, 1] (argsort (Table.rowCounts ⟨1, [[none], [none]]⟩)) ∧
        List.Sublist [1, 0] (argsort (Table.rowCounts ⟨1, [[none], [none]]⟩)).reverse)) ∧
    ((Table.rowCounts ⟨1, [[some 0], [none]]⟩).Nodup ∧
      nullity_sort (applyRowPerm (argsort (Table.rowCounts ⟨1, [[some 0], [none]]⟩))
          ⟨1, [[some 0], [none]]⟩) (some "descending") "columns"
        = Except.ok (0,
            ⟨(applyRowPerm (argsort (Table.rowCounts ⟨1, [[some 0], [none]]⟩))
                (⟨1, [[some 0], [none]]⟩ : Table)).ncols,
              (applyRowPerm (argsort (Table.rowCounts ⟨1, [[some 0], [none]]⟩))
                (⟨1, [[some 0], [none]]⟩ : Table)).rows.reverse⟩)) :=
  ⟨⟨by decide, by decide, by decide,
    (C2_descending_is_full_reversal ⟨1, [[none], [none]]⟩).2.2.1 0 1 (by decide) (by decide)
      (by decide)⟩,
    ⟨by decide,
      ((C2_descending_is_full_reversal ⟨1, [[some 0], [none]]⟩).2.2.2.2.1 (by decide)).1
        _ rfl⟩⟩

/-- C3: `filter` with mode `"top"` and both `p` and `n` non-zero first keeps exactly
the columns with completeness fraction at least `p` (in original order) and then, on
that result, keeps the `n` highest-count columns in original order; hence the result
has at most `n` columns, every surviving column has fraction at least `p`, and if at
most `n` columns satisfy the fraction the result is exactly the `p`-filtered table. -/
theorem C3_top_filter_composes (t : Table) (p : ℚ) (n : Nat)
    (hp : p ≠ 0) (hn : n ≠ 0) :
    nullity_filter t (some "top") p n
        = nullity_filter (nullity_filter t (some "top") p 0) (some "top") 0 n ∧
    nullity_filter t (some "top") p 0 = applyColPerm (topSurvivors t p) t ∧
    (nullity_filter t (some "top") p n).ncols ≤ n ∧
    (∃ sel : List Nat, List.Sublist sel (List.range t.ncols) ∧
        (∀ j ∈ sel, p ≤ t.colFrac j) ∧
        nullity_filter t (some "top") p n = applyColPerm sel t) ∧
    ((topSurvivors t p).length ≤ n →
        nullity_filter t (some "top") p n = applyColPerm (topSurvivors t p) t) ∧
    (∀ i ∈ nTopPositions (nullity_filter t (some "top") p 0).colCounts n,
      ∀ j < (nullity_filter t (some "top") p 0).ncols,
        j ∉ nTopPositions (nullity_filter t (some "top") p 0).colCounts n →
          (nullity_filter t (some "top") p 0).colCounts.getD j 0
            ≤ (nullity_filter t (some "top") p 0).colCounts.getD i 0) := by
  have e0 : nullity_filter t (some "top") p 0 = applyColPerm (topSurvivors t p) t := by
    simp [nullity_filter, hp, maskCols, topSurvivors]
  have e1 : nullity_filter t (some "top") p n
      = applyColPerm (nTopPositions (applyColPerm (topSurvivors t p) t).colCounts n)
          (applyColPerm (topSurvivors t p) t) := by
    simp [nullity_filter, hp, hn, maskCols, topSurvivors]
  have hlen1 : (applyColPerm (topSurvivors t p) t).colCounts.length
      = (topSurvivors t p).length := by
    rw [colCounts_length]
    rfl
  have hbound : ∀ i ∈ nTopPositions (applyColPerm (topSurvivors t p) t).colCounts n,
      i < (topSurvivors t p).length := fun i hi =>
    hlen1 ▸ List.mem_range.mp
      ((nTopPositions_sublist (applyColPerm (topSurvivors t p) t).colCounts n).1.subset hi)
  refine ⟨?_, e0, ?_, ?_, ?_, ?_⟩
  · rw [e1, e0]
    simp [nullity_filter, hn]
  · rw [e1]
    show (nTopPositions (applyColPerm (topSurvivors t p) t).colCounts n).length ≤ n
    rw [(nTopPositions_sublist _ _).2]
    exact Nat.min_le_left _ _
  · refine ⟨(nTopPositions (applyColPerm (topSurvivors t p) t).colCounts n).map
      (fun i => (topSurvivors t p).getD i 0), ?_, ?_, ?_⟩
    · exact (map_getD_sublist (nTopPositions_pairwise_lt _ _) hbound).trans
        (List.filter_sublist _)
    · intro j hj
      rcases List.mem_map.mp hj with ⟨i, hi, rfl⟩
      have hilt := hbound i hi
      have hjm : (topSurvivors t p).getD i 0 ∈ topSurvivors t p := by
        rw [List.getD_eq_getElem _ _ hilt]
        exact List.getElem_mem hilt
      have hfil := List.of_mem_filter hjm
      simpa using hfil
    · rw [e1, applyColPerm_applyColPerm _ _ _ hbound]
  · intro hle
    rw [e1]
    have hk : (applyColPerm (topSurvivors t p) t).colCounts.length - n = 0 := by omega
    have hns : nTopPositions (applyColPerm (topSurvivors t p) t).colCounts n
        = List.range (applyColPerm (topSurvivors t p) t).colCounts.length := by
      show natSort ((argsort (applyColPerm (topSurvivors t p) t).colCounts).drop
        ((applyColPerm (topSurvivors t p) t).colCounts.length - n)) = _
      rw [hk, List.drop_zero]
      exact natSort_eq_range (argsort_perm _)
    rw [hns, colCounts_length]
    exact applyColPerm_range (applyColPerm_rect _ _)
  · intro i hi j hj hj2
    rw [e0] at hi hj hj2 ⊢
    have hj' : j < (applyColPerm (topSurvivors t p) t).colCounts.length := by
      rw [colCounts_length]
      exact hj
    exact nTopPositions_highest hi hj' hj2

theorem C3_top_filter_composes_witness :
    ((1 : ℚ) ≠ 0) ∧ ((1 : Nat) ≠ 0) ∧ (nullity_filter T46 (some "top") 1 1).ncols ≤ 1 :=
  ⟨one_ne_zero, by decide,
    (C3_top_filter_composes T46 1 1 one_ne_zero (by decide)).2.2.1⟩

/-- C6: `filter` with mode `"bottom"` keeps the columns with completeness fraction at
most `p` when `p` is non-zero, and/or the `n` lowest-count columns (the smallest-count
positions of the ascending ranking) when `n` is non-zero, returned in original column
order; on the 4-row table with columns A(4), B(2), C(1), D(4),
`filter(T, "bottom", p=0, n=2)` returns exactly the columns [B, C] in that order. -/
theorem C6_bottom_filter (t : Table) (p : ℚ) (n : Nat) :
    (p ≠ 0 → nullity_filter t (some "bottom") p 0 = applyColPerm (botSurvivors t p) t) ∧
    (p ≠ 0 → n ≠ 0 → nullity_filter t (some "bottom") p n
        = nullity_filter (nullity_filter t (some "bottom") p 0) (some "bottom") 0 n) ∧
    (n ≠ 0 →
      nullity_filter t (some "bottom") 0 n
          = applyColPerm (nBottomPositions t.colCounts n) t ∧
      List.Sublist (nBottomPositions t.colCounts n) (List.range t.ncols) ∧
      (nBottomPositions t.colCounts n).length = min n t.ncols ∧
      (∀ i ∈ nBottomPositions t.colCounts n, ∀ j < t.ncols,
        j ∉ nBottomPositions t.colCounts n →
          t.colCounts.getD i 0 ≤ t.colCounts.getD j 0)) ∧
    nullity_filter T46 (some "bottom") 0 2
      = ⟨2, [[some 2, some 3], [some 2, none], [none, none], [none, none]]⟩ := by
  refine ⟨?_, ?_, ?_, by decide⟩
  · intro hp
    simp [nullity_filter, hp, maskCols, botSurvivors]
  · intro hp hn
    have e0 : nullity_filter t (some "bottom") p 0
        = applyColPerm (botSurvivors t p) t := by
      simp [nullity_filter, hp, maskCols, botSurvivors]
    have e1 : nullity_filter t (some "bottom") p n
        = applyColPerm (nBottomPositions (applyColPerm (botSurvivors t p) t).colCounts n)
            (applyColPerm (botSurvivors t p) t) := by
      simp [nullity_filter, hp, hn, maskCols, botSurvivors]
    rw [e1, e0]
    simp [nullity_filter, hn]
  · intro hn
    have e1 : nullity_filter t (some "bottom") 0 n
        = applyColPerm (nBottomPositions t.colCounts n) t := by
      simp [nullity_filter, hn]
    refine ⟨e1, ?_, ?_, ?_⟩
    · have h := (nBottomPositions_sublist t.colCounts n).1
      rw [colCounts_length] at h
      exact h
    · rw [(nBottomPositions_sublist t.colCounts n).2, colCounts_length]
    · intro i hi j hj hj2
      have hj' : j < t.colCounts.length := by
        rw [colCounts_length]
        exact hj
      exact nBottomPositions_lowest hi hj' hj2

theorem C6_bottom_filter_witness :
    (((1 : ℚ) ≠ 0) ∧
      nullity_filter T46 (some "bottom") 1 0 = applyColPerm (botSurvivors T46 1) T46) ∧
    (((2 : Nat) ≠ 0) ∧
      nullity_filter T46 (some "bottom") 0 2
        = applyColPerm (nBottomPositions T46.colCounts 2) T46) ∧
    nullity_filter T46 (some "bottom") 0 2
      = ⟨2, [[some 2, some 3], [some 2, none], [none, none], [none, none]]⟩ :=
  ⟨⟨one_ne_zero, (C6_bottom_filter T46 1 0).1 one_ne_zero⟩,
    ⟨by decide, ((C6_bottom_filter T46 1 2).2.2.1 (by decide)).1⟩,
    (C6_bottom_filter T46 1 2).2.2.2⟩

theorem C8_shape_and_cells_preserved_witness :
    (Table.Rect ⟨1, [[some 0], [none]]⟩) ∧
      ("ascending" = "ascending" ∨ "ascending" = "descending") ∧
      ("columns" = "index" ∨ "columns" = "columns" ∨ "columns" = "rows") ∧
      ∃ (w : Nat) (t2 : Table),
        nullity_sort ⟨1, [[some 0], [none]]⟩ (some "ascending") "columns"
          = Except.ok (w, t2) ∧
        t2.rows.length = (⟨1, [[some 0], [none]]⟩ : Table).rows.length ∧
        t2.ncols = (⟨1, [[some 0], [none]]⟩ : Table).ncols ∧
        t2.rows.flatten.Perm (⟨1, [[some 0], [none]]⟩ : Table).rows.flatten :=
  ⟨by decide, Or.inl rfl, Or.inr (Or.inl rfl),
    C8_shape_and_cells_preserved ⟨1, [[some 0], [none]]⟩ "ascending" "columns"
      (by decide) (Or.inl rfl) (Or.inr (Or.inl rfl))⟩

end Missingno
